import Mathlib

/-!
Verification of the ingestion/sync engine and the hybrid-search merge of the
aws-rag-bot repository. Definitions are shallow embeddings of the Python
source under `app/services/`:

* `pyStrip` models Python's `str.strip()` (drop leading/trailing whitespace);
* `Json` models the JSON values the OpenSearch client exchanges (JSON numbers
  are modelled as integers; none of the verified properties touches floats);
* `count_by_term_parse` embeds `_OpenSearchClient.count_by_term`'s parsing of
  a successful search response (`opensearch_service.py`);
* `properties_cover_expected` embeds the mapping-coverage check
  (`OpenSearchService._properties_cover_expected`);
* `hybrid_search` embeds `OpenSearchService.hybrid_search` with the two
  engines and the embedding model supplied as oracles, returning both the
  merged result and the trace of remote calls issued;
* `startup_ingest` embeds `startup_ingest_sagemaker_docs`
  (`dependencies.py`), with S3, the two indexes, the splitter and the
  embedder supplied as oracles; it returns the run outcome together with the
  trace of uploads, index writes, split calls and embedding calls. The
  bounded-concurrency scheduling is collapsed to the sequential semantics:
  each document is processed independently and the per-item results are
  aggregated exactly as the `asyncio.gather(..., return_exceptions=True)`
  loop does.
-/

namespace AwsRagBot

/-! ### Python `str.strip()` -/

/-- Python's `str.strip()` on the character list: drop leading and trailing
whitespace. -/
def pyStripList (cs : List Char) : List Char :=
  ((cs.dropWhile Char.isWhitespace).reverse.dropWhile Char.isWhitespace).reverse

/-- Python's `str.strip()`. -/
def pyStrip (s : String) : String := String.mk (pyStripList s.data)

theorem dropWhile_head_not {p : α → Bool} :
    ∀ {xs : List α} {a : α}, (xs.dropWhile p).head? = some a → p a = false := by
  intro xs
  induction xs with
  | nil => intro a h; simp [List.dropWhile] at h
  | cons x xs ih =>
    intro a h
    by_cases hx : p x
    · rw [List.dropWhile_cons_of_pos hx] at h
      exact ih h
    · rw [List.dropWhile_cons_of_neg hx] at h
      simp at h
      rw [← h]
      simpa using hx

theorem dropWhile_eq_self_of_head {p : α → Bool} {xs : List α}
    (h : ∀ a, xs.head? = some a → p a = false) : xs.dropWhile p = xs := by
  cases xs with
  | nil => rfl
  | cons x xs =>
    have hx : p x = false := h x rfl
    exact List.dropWhile_cons_of_neg (by simp [hx])

theorem getLast?_dropWhile {p : α → Bool} (xs : List α)
    (h : xs.dropWhile p ≠ []) : (xs.dropWhile p).getLast? = xs.getLast? := by
  conv_rhs => rw [← List.takeWhile_append_dropWhile (p := p) (l := xs)]
  rw [List.getLast?_append_of_ne_nil _ h]

theorem pyStripList_idem (cs : List Char) :
    pyStripList (pyStripList cs) = pyStripList cs := by
  set p := Char.isWhitespace with hp
  set d₁ := cs.dropWhile p with hd₁
  set d₂ := d₁.reverse.dropWhile p with hd₂
  have hr : pyStripList cs = d₂.reverse := rfl
  rw [hr]
  by_cases hnil : d₂ = []
  · simp [pyStripList, hnil]
  -- The first character of `d₂.reverse` is the last of `d₂`, which is the
  -- head of `d₁` (a `dropWhile` result), so it is not whitespace.
  have hlast : d₂.getLast? = d₁.head? := by
    rw [hd₂, getLast?_dropWhile _ (by rw [← hd₂]; exact hnil)]
    exact List.getLast?_reverse d₁
  have hhead : ∀ a, d₂.reverse.head? = some a → p a = false := by
    intro a ha
    rw [List.head?_reverse, hlast] at ha
    have : d₁.head? = (cs.dropWhile p).head? := by rw [hd₁]
    exact dropWhile_head_not (by rw [← hd₁]; exact ha)
  have h₁ : d₂.reverse.dropWhile p = d₂.reverse := dropWhile_eq_self_of_head hhead
  have h₂ : d₂.dropWhile p = d₂ := by
    apply dropWhile_eq_self_of_head
    intro a ha
    exact dropWhile_head_not (p := p) (by rw [← hd₂]; exact ha)
  show ((d₂.reverse.dropWhile p).reverse.dropWhile p).reverse = d₂.reverse
  rw [h₁, List.reverse_reverse, h₂]

theorem pyStrip_idem (s : String) : pyStrip (pyStrip s) = pyStrip s := by
  show String.mk (pyStripList (String.mk (pyStripList s.data)).data)
      = String.mk (pyStripList s.data)
  rw [show (String.mk (pyStripList s.data)).data = pyStripList s.data from rfl,
    pyStripList_idem]

/-! ### JSON values -/

/-- JSON values as the service parses them (JSON numbers modelled as
integers). -/
inductive Json where
  | null : Json
  | bool : Bool → Json
  | num : Int → Json
  | str : String → Json
  | arr : List Json → Json
  | obj : List (String × Json) → Json

/-- Key lookup in a JSON object (`dict.get`). -/
def jsonLookup : List (String × Json) → String → Option Json
  | [], _ => none
  | (k, v) :: rest, key => if k = key then some v else jsonLookup rest key

mutual

/-- Structural equality of JSON values (Python `==` on parsed JSON). -/
def jsonEq : Json → Json → Bool
  | .null, .null => true
  | .bool a, .bool b => a == b
  | .num a, .num b => a == b
  | .str a, .str b => a == b
  | .arr as_, .arr bs => jsonEqList as_ bs
  | .obj as_, .obj bs => jsonEqFields as_ bs
  | _, _ => false

def jsonEqList : List Json → List Json → Bool
  | [], [] => true
  | a :: as_, b :: bs => jsonEq a b && jsonEqList as_ bs
  | _, _ => false

def jsonEqFields : List (String × Json) → List (String × Json) → Bool
  | [], [] => true
  | (k₁, v₁) :: as_, (k₂, v₂) :: bs => k₁ == k₂ && jsonEq v₁ v₂ && jsonEqFields as_ bs
  | _, _ => false

end

/-- Python truthiness of a parsed JSON value. -/
def pyTruthy : Json → Bool
  | .null => false
  | .bool b => b
  | .num n => n != 0
  | .str s => s != ""
  | .arr xs => !xs.isEmpty
  | .obj fs => !fs.isEmpty

/-- Digit-string to number, `none` when a character is not a digit or the
string is empty. -/
def digitsToNat? (ds : List Char) : Option Nat :=
  if ds ≠ [] ∧ ds.all Char.isDigit then
    some (ds.foldl (fun a c => a * 10 + (c.toNat - '0'.toNat)) 0)
  else none

/-- Python `int(str)`: strip whitespace, optional sign, digits. -/
def strToInt? (s : String) : Option Int :=
  match pyStripList s.data with
  | '-' :: ds => (digitsToNat? ds).map (fun n => -(n : Int))
  | '+' :: ds => (digitsToNat? ds).map (fun n => (n : Int))
  | ds => (digitsToNat? ds).map (fun n => (n : Int))

/-- Python `int(x)` on a parsed JSON value; `none` when `int()` raises
(`TypeError` on null/lists/objects, `ValueError` on non-numeric strings).
`bool` coerces because Python's `bool` is a subtype of `int`. -/
def pyInt? : Json → Option Int
  | .num n => some n
  | .bool b => some (if b then 1 else 0)
  | .str s => strToInt? s
  | _ => none

/-! ### `_OpenSearchClient.count_by_term` response parsing -/

/-- The parsing `count_by_term` performs on a successful search response
(`opensearch_service.py` lines 254-271). A `Json.bool` total is returned as
0/1 because Python's `isinstance(total, int)` is true for `bool`. The
`try: int(value_raw) except: return 0` block is the `getD 0` fallback. -/
def count_by_term_parse (resp : List (String × Json)) : Int :=
  match jsonLookup resp "hits" with
  | some (Json.obj hits) =>
    match jsonLookup hits "total" with
    | some (Json.num n) => n
    | some (Json.bool b) => if b then 1 else 0
    | some (Json.obj total) =>
      match jsonLookup total "value" with
      | none => 0
      | some v => (pyInt? v).getD 0
    | _ => 0
  | _ => 0

/-- Spec-level reading of "a response shape that can be parsed as a count":
`hits` is an object whose `total` is either an integer (possibly a Python
bool) or an object whose `value` coerces to an integer. -/
def parsedTotal (resp : List (String × Json)) : Option Int :=
  match jsonLookup resp "hits" with
  | some (Json.obj hits) =>
    match jsonLookup hits "total" with
    | some (Json.num n) => some n
    | some (Json.bool b) => some (if b then 1 else 0)
    | some (Json.obj total) =>
      match jsonLookup total "value" with
      | none => none
      | some v => pyInt? v
    | _ => none
  | _ => none

/-! ### Mapping coverage (`OpenSearchService._properties_cover_expected`) -/

/-- The `if expected_type and existing_spec.get("type") != expected_type`
guard: a truthy expected type that the existing spec does not match. -/
def typeFailCheck (es xs : List (String × Json)) : Bool :=
  match jsonLookup es "type" with
  | none => false
  | some t =>
    pyTruthy t &&
      (match jsonLookup xs "type" with
       | none => true
       | some xt => !jsonEq xt t)

/-- The `expected_type == "knn_vector"` test. -/
def isKnnExpected (es : List (String × Json)) : Bool :=
  match jsonLookup es "type" with
  | some t => jsonEq t (Json.str "knn_vector")
  | none => false

/-- The dimension comparison for `knn_vector` fields: both `dimension`
values present (a JSON null reads as absent through the failing `int()`)
and coercing to equal integers. -/
def dimensionOk (es xs : List (String × Json)) : Bool :=
  match jsonLookup es "dimension", jsonLookup xs "dimension" with
  | some ed, some xd =>
    match pyInt? ed, pyInt? xd with
    | some a, some b => a == b
    | _, _ => false
  | _, _ => false

/-- The per-field body of `_properties_cover_expected`'s loop
(`opensearch_service.py` lines 387-413): field must be present; a non-dict
expected spec only requires presence; a present field with a dict expected
spec must itself be a dict; a truthy expected `type` must match; a
`knn_vector` expected type additionally requires both `dimension` values to
be present and coerce to equal integers. -/
def coverField (existing_props : List (String × Json)) (field : String)
    (expected_spec : Json) : Bool :=
  match jsonLookup existing_props field with
  | none => false
  | some existing_spec =>
    match expected_spec with
    | Json.obj es =>
      match existing_spec with
      | Json.obj xs =>
        if typeFailCheck es xs then false
        else if isKnnExpected es then dimensionOk es xs
        else true
      | _ => false
    | _ => true

/-- `OpenSearchService._properties_cover_expected`: every expected field must
be covered; extra existing fields are permitted. -/
def properties_cover_expected (existing_props expected_props : List (String × Json)) : Bool :=
  expected_props.all (fun fe => coverField existing_props fe.1 fe.2)

/-- A declared field of an index mapping: a type name plus an optional
`knn_vector` dimension. Used to state the coverage check's specification over
well-formed mappings. -/
structure FieldDecl where
  type : String
  dimension : Option Int
deriving DecidableEq, Repr

/-- The `dimension` entry a `FieldDecl` declares, when any. -/
def FieldDecl.dimList (d : FieldDecl) : List (String × Json) :=
  match d.dimension with
  | some n => [("dimension", Json.num n)]
  | none => []

/-- The JSON spec a `FieldDecl` denotes. -/
def FieldDecl.toJson (d : FieldDecl) : Json :=
  Json.obj (("type", Json.str d.type) :: d.dimList)

/-- A whole mapping of declared fields as the JSON properties object. -/
def encodeProps : List (String × FieldDecl) → List (String × Json)
  | [] => []
  | (f, d) :: rest => (f, d.toJson) :: encodeProps rest

/-- First declaration under a field name. -/
def lookupDecl : List (String × FieldDecl) → String → Option FieldDecl
  | [], _ => none
  | (k, v) :: rest, key => if k = key then some v else lookupDecl rest key

/-- Spec-level "existing field covers expected field": same declared type,
and for `knn_vector` fields both dimensions declared and equal. -/
def declCovers (x e : FieldDecl) : Prop :=
  x.type = e.type ∧
    (e.type = "knn_vector" → ∃ n, e.dimension = some n ∧ x.dimension = some n)

/-! ### S3 destination keys and the upload plan (`dependencies.py` 99-111) -/

/-- Python `s.endswith("/")`. -/
def endswithSlash (s : String) : Bool := s.data.getLast? == some '/'

/-- The prefix normalization `if prefix and not prefix.endswith("/"):
prefix += "/"`. -/
def ensureTrailingSlash (p : String) : String :=
  if p ≠ "" ∧ endswithSlash p = false then p ++ "/" else p

/-- The configured prefix as the sync run uses it: stripped, then given a
trailing separator when non-empty. -/
def destPfx (raw : String) : String := ensureTrailingSlash (pyStrip raw)

/-- Destination key of a local file: `f"{prefix}{rel_key}" if prefix else
rel_key`. -/
def destKey (pfx relKey : String) : String :=
  if pfx ≠ "" then pfx ++ relKey else relKey

/-- The upload plan: local files (by relative POSIX path) whose destination
key is not among the keys listed remotely, paired with that key, in local
order. -/
def planned_uploads (pfx : String) (existingKeys : List String)
    (relKeys : List String) : List (String × String) :=
  relKeys.filterMap (fun rk =>
    let key := destKey pfx rk
    if key ∈ existingKeys then none else some (rk, key))

/-! ### Hybrid search (`OpenSearchService.hybrid_search`) -/

/-- `_strip_em_tags` on the character list: `re.sub(r"</?em>", "", text)`,
left-to-right non-overlapping removal of `<em>` and `</em>`. -/
def stripEmChars : List Char → List Char
  | '<' :: 'e' :: 'm' :: '>' :: rest => stripEmChars rest
  | '<' :: '/' :: 'e' :: 'm' :: '>' :: rest => stripEmChars rest
  | c :: rest => c :: stripEmChars rest
  | [] => []

/-- `OpenSearchService._strip_em_tags`. -/
def stripEmTags (s : String) : String := String.mk (stripEmChars s.data)

/-- One hit of the vector engine's response as `hybrid_search` reads it:
`str(src.get("text") or "")` and `str(src.get("path") or "")` (a missing or
null field reads as `""`). -/
structure VectorHit where
  text : String
  path : String
deriving DecidableEq, Repr

/-- One hit of the lexical engine's response as `hybrid_search` reads it:
source path and title (missing reads as `""`) and the
`highlight.content` fragments (missing reads as `[]`). -/
structure LexicalHit where
  path : String
  title : String
  highlights : List String
deriving DecidableEq, Repr

/-- The accumulating result of the merge: `phrases` doubles as the
`seen_phrases` set (it lists exactly the phrases seen, in insertion order)
and `documents` likewise. -/
structure MergeState where
  phrases : List String
  documents : List String
deriving DecidableEq, Repr

/-- The closure `_add_phrase` (`opensearch_service.py` lines 576-587):
trim the phrase, drop it when empty, append phrase and document each only on
first sight. -/
def addPhrase (st : MergeState) (phrase doc : String) : MergeState :=
  let p := pyStrip phrase
  if p = "" then st
  else
    let phrases := if p ∈ st.phrases then st.phrases else st.phrases ++ [p]
    let documents :=
      if doc = "" then st.documents
      else
        let d := pyStrip doc
        if d = "" ∨ d ∈ st.documents then st.documents
        else st.documents ++ [d]
    ⟨phrases, documents⟩

/-- Processing of one lexical hit: its highlight fragments with emphasis
markup stripped when it has any, its title otherwise (a falsy title
contributes nothing). -/
def lexicalStep (st : MergeState) (h : LexicalHit) : MergeState :=
  match h.highlights with
  | [] => if h.title = "" then st else addPhrase st h.title h.path
  | _ => h.highlights.foldl (fun st frag => addPhrase st (stripEmTags frag) h.path) st

/-- The merge loop of `hybrid_search` (lines 589-605): vector hits first,
then lexical hits. -/
def hybridMerge (vhits : List VectorHit) (lhits : List LexicalHit) :
    List String × List String :=
  let st₁ := vhits.foldl (fun st h => addPhrase st h.text h.path) ⟨[], []⟩
  let st₂ := lhits.foldl lexicalStep st₁
  (st₂.phrases, st₂.documents)

/-- Spec-level contribution of a vector hit: its stored chunk text as a
phrase, its source path as a document reference. -/
def vectorContribution (h : VectorHit) : List (String × String) :=
  [(h.text, h.path)]

/-- Spec-level contribution of a lexical hit: its highlighted fragments with
the emphasis markup stripped or, lacking highlights, its title. -/
def lexicalContribution (h : LexicalHit) : List (String × String) :=
  match h.highlights with
  | [] => if h.title = "" then [] else [(h.title, h.path)]
  | hs => hs.map (fun frag => (stripEmTags frag, h.path))

/-- Spec-level merge stream: vector contributions first, in engine order,
then lexical contributions. -/
def mergeStream (vhits : List VectorHit) (lhits : List LexicalHit) :
    List (String × String) :=
  (vhits.map vectorContribution).flatten ++ (lhits.map lexicalContribution).flatten

/-- Stable insertion-order deduplication of a contribution stream. -/
def dedupInsertionOrder (entries : List (String × String)) :
    List String × List String :=
  let st := entries.foldl (fun st e => addPhrase st e.1 e.2) ⟨[], []⟩
  (st.phrases, st.documents)

/-- The spec's description of the whole merge. -/
def hybridMergeSpec (vhits : List VectorHit) (lhits : List LexicalHit) :
    List String × List String :=
  dedupInsertionOrder (mergeStream vhits lhits)

/-- The clamp `max(1, min(50, int(k)))`. -/
def clampK (k : Int) : Int := max 1 (min 50 k)

/-- The external collaborators `hybrid_search` calls: the embedding model
and the two search engines (embedding values are opaque to the merge). -/
structure SearchEnv where
  embedQuery : String → List Int
  lexEngine : String → Int → List LexicalHit
  vecEngine : List Int → Int → List VectorHit

/-- One remote call issued by `hybrid_search`. -/
inductive RemoteCall where
  | embedText : String → RemoteCall
  | lexSearch : String → Int → RemoteCall
  | vecSearch : Int → RemoteCall
deriving DecidableEq, Repr

/-- `OpenSearchService.hybrid_search` (lines 545-605): returns the merged
`(phrases, documents)` together with the trace of remote calls issued (the
embedding computation and the two engine queries). -/
def hybrid_search (env : SearchEnv) (query : String) (k_text k_vector : Int) :
    (List String × List String) × List RemoteCall :=
  let cleaned := pyStrip query
  if cleaned = "" then (([], []), [])
  else
    let kT := clampK k_text
    let kV := clampK k_vector
    let emb := env.embedQuery cleaned
    let lhits := env.lexEngine cleaned kT
    let vhits := env.vecEngine emb kV
    (hybridMerge vhits lhits,
      [RemoteCall.embedText cleaned, RemoteCall.lexSearch cleaned kT,
       RemoteCall.vecSearch kV])

/-! ### Startup ingestion (`startup_ingest_sagemaker_docs`, `dependencies.py`) -/

/-- A local markdown document: relative POSIX path and content. -/
structure Doc where
  relPath : String
  content : String
deriving DecidableEq, Repr

/-- A write-side effect or expensive call the run performs (reads —
existence checks, count queries, listings — are not events). -/
inductive WriteEvent where
  | upload : String → WriteEvent
  | indexText : String → WriteEvent
  | splitCall : String → WriteEvent
  | embedCall : String → WriteEvent
  | indexChunk : String → WriteEvent
deriving DecidableEq, Repr

/-- The external collaborators of the ingestion run, each fallible
(`Except.error` models a raised exception). `docId` is
`doc_id_from_rel_path` (a SHA-256 hex digest in the source), `split` is
`split_text_into_phrases`, `chunkCount` is the vector-index
`count_by_term` on `doc_id`. -/
structure IngestOracles where
  docId : String → String
  split : String → List String
  embed : String → Except String (List Int)
  textExists : String → Except String Bool
  indexText : String → Except String Unit
  chunkCount : String → Except String Int
  indexChunk : String → Except String Unit
  upload : String → Except String Unit

/-- `OpenSearchService.embeddings_exist_for_doc`: the count query's result
compared with zero (a failing query propagates). -/
def embeddings_exist_for_doc (o : IngestOracles) (id : String) :
    Except String Bool :=
  (o.chunkCount id).map (fun n => decide (0 < n))

/-- The chunk loop of `_index_one_doc`: per phrase, one embedding call then
one chunk-index write; the first failure aborts the document (later counts
are lost) but the events up to it did happen. -/
def processChunks (o : IngestOracles) (id : String) :
    List String → Nat → Except String Nat × List WriteEvent
  | [], _ => (Except.ok 0, [])
  | ph :: rest, i =>
    match o.embed ph with
    | .error e => (.error e, [.embedCall ph])
    | .ok _ =>
      let cid := id ++ "_" ++ toString i
      match o.indexChunk cid with
      | .error e => (.error e, [.embedCall ph, .indexChunk cid])
      | .ok _ =>
        let (r, evs) := processChunks o id rest (i + 1)
        (r.map (· + 1), .embedCall ph :: .indexChunk cid :: evs)

/-- `_index_one_doc` (`dependencies.py` lines 139-185): lexical existence
check and conditional write, then document-granular chunk existence check
and conditional split/embed/write loop. Returns `(indexed_text,
indexed_chunks)` or the first uncaught exception, together with the events
that happened before the return. -/
def indexOneDoc (o : IngestOracles) (d : Doc) :
    Except String (Nat × Nat) × List WriteEvent :=
  let id := o.docId d.relPath
  match o.textExists id with
  | .error e => (.error e, [])
  | .ok tExists =>
    let tPair : Except String Nat × List WriteEvent :=
      if tExists then (.ok 0, [])
      else
        match o.indexText id with
        | .error e => (.error e, [.indexText id])
        | .ok _ => (.ok 1, [.indexText id])
    match tPair with
    | (.error e, evs) => (.error e, evs)
    | (.ok t, evs) =>
      match embeddings_exist_for_doc o id with
      | .error e => (.error e, evs)
      | .ok true => (.ok (t, 0), evs)
      | .ok false =>
        let phrases := o.split d.content
        let (r, cEvs) := processChunks o id phrases 0
        (r.map (fun c => (t, c)), evs ++ WriteEvent.splitCall d.content :: cEvs)

/-- The upload loop: every planned upload is attempted; failures are logged
and not counted, successes are counted. -/
def runUploads (o : IngestOracles) :
    List (String × String) → Nat × List WriteEvent
  | [] => (0, [])
  | (_, key) :: rest =>
    let (n, evs) := runUploads o rest
    match o.upload key with
    | .ok _ => (n + 1, WriteEvent.upload key :: evs)
    | .error _ => (n, WriteEvent.upload key :: evs)

/-- The counts `startup_ingest_sagemaker_docs` returns. -/
structure IngestOutcome where
  local_docs : Nat
  s3_uploaded : Nat
  search_indexed : Nat
  vector_chunks_indexed : Nat
deriving DecidableEq, Repr

/-- The contribution one document makes to the run counts: its `(text,
chunks)` pair when its processing succeeded, `(0, 0)` when its exception was
caught by the gather loop. -/
def docContribution (o : IngestOracles) (d : Doc) : Nat × Nat :=
  match (indexOneDoc o d).1 with
  | .ok tc => tc
  | .error _ => (0, 0)

/-- The `for r in results` loop after the gather: an exception is logged and
skipped, a success adds its two counters. -/
def gatherStep (acc : Nat × Nat)
    (rp : Except String (Nat × Nat) × List WriteEvent) : Nat × Nat :=
  match rp.1 with
  | .ok (t, c) => (acc.1 + t, acc.2 + c)
  | .error _ => acc

/-- `startup_ingest_sagemaker_docs` (`dependencies.py` lines 82-209) in
sequential semantics. `rootValid` is `docs_dir.exists() and
docs_dir.is_dir()`: when false the run logs a warning and returns the
all-zero outcome without ingesting. Otherwise: prefix normalization, S3
diff and uploads, then per-document lexical and chunk indexing with
per-item exceptions caught and counted by the final `gather` loop. -/
def startup_ingest (o : IngestOracles) (rootValid : Bool) (prefixRaw : String)
    (existingKeys : List String) (docs : List Doc) :
    Except String IngestOutcome × List WriteEvent :=
  if rootValid = false then
    (.ok ⟨0, 0, 0, 0⟩, [])
  else
    let pfx := destPfx prefixRaw
    let planned := planned_uploads pfx existingKeys (docs.map Doc.relPath)
    let (nUp, upEvs) := runUploads o planned
    let docResults := docs.map (indexOneDoc o)
    let counts := docResults.foldl gatherStep ((0 : Nat), (0 : Nat))
    (.ok ⟨docs.length, nUp, counts.1, counts.2⟩,
      upEvs ++ (docResults.map Prod.snd).flatten)

/-! ### Theorems -/

theorem foldl_addPhrase_vector (vhits : List VectorHit) (st : MergeState) :
    vhits.foldl (fun st h => addPhrase st h.text h.path) st
      = ((vhits.map vectorContribution).flatten).foldl
          (fun st e => addPhrase st e.1 e.2) st := by
  induction vhits generalizing st with
  | nil => rfl
  | cons h t ih => simp [vectorContribution, ih]

theorem lexicalStep_eq_foldl (st : MergeState) (h : LexicalHit) :
    lexicalStep st h
      = (lexicalContribution h).foldl (fun st e => addPhrase st e.1 e.2) st := by
  cases hh : h.highlights with
  | nil =>
    simp only [lexicalStep, lexicalContribution, hh]
    split <;> rfl
  | cons a as_ =>
    simp only [lexicalStep, lexicalContribution, hh, List.foldl_map]

theorem foldl_lexicalStep (lhits : List LexicalHit) (st : MergeState) :
    lhits.foldl lexicalStep st
      = ((lhits.map lexicalContribution).flatten).foldl
          (fun st e => addPhrase st e.1 e.2) st := by
  induction lhits generalizing st with
  | nil => rfl
  | cons h t ih =>
    simp [List.foldl_append, ih, lexicalStep_eq_foldl]

theorem hybridMerge_eq_spec (vhits : List VectorHit) (lhits : List LexicalHit) :
    hybridMerge vhits lhits = hybridMergeSpec vhits lhits := by
  unfold hybridMerge hybridMergeSpec dedupInsertionOrder mergeStream
  rw [List.foldl_append, ← foldl_addPhrase_vector, ← foldl_lexicalStep]

/-- C2: the hybrid merge appends vector hits first, in engine order, each
contributing its chunk text and source path, then lexical hits, each
contributing its markup-stripped highlight fragments or else its title,
with stable insertion-order deduplication of trimmed phrases and of
document paths; on the concrete responses of the claim it returns exactly
`(["A", "B"], ["x", "y"])`. -/
theorem hybrid_merge_vector_first :
    (∀ (vhits : List VectorHit) (lhits : List LexicalHit),
        hybridMerge vhits lhits = hybridMergeSpec vhits lhits) ∧
    hybridMerge [⟨"A", "x"⟩] [⟨"y", "ty", ["B"]⟩, ⟨"x", "tx", ["A"]⟩]
      = (["A", "B"], ["x", "y"]) :=
  ⟨hybridMerge_eq_spec, by decide⟩

/-- All-empty engines, for concrete instantiations. -/
def emptyEnv : SearchEnv :=
  ⟨fun _ => [], fun _ _ => [], fun _ _ => []⟩

/-- C8: for a non-whitespace query, the requested result counts are clamped
into `[1, 50]` before the queries are issued (the issued trace carries the
clamped values); in particular 999 clamps to 50 and 0 clamps to 1. -/
theorem hybrid_search_clamps (env : SearchEnv) (query : String)
    (k_text k_vector : Int) (h : pyStrip query ≠ "") :
    (hybrid_search env query k_text k_vector).2
      = [RemoteCall.embedText (pyStrip query),
         RemoteCall.lexSearch (pyStrip query) (clampK k_text),
         RemoteCall.vecSearch (clampK k_vector)] ∧
    1 ≤ clampK k_text ∧ clampK k_text ≤ 50 ∧
    1 ≤ clampK k_vector ∧ clampK k_vector ≤ 50 ∧
    clampK 999 = 50 ∧ clampK 0 = 1 := by
  refine ⟨by simp [hybrid_search, h], le_max_left _ _,
    max_le (by norm_num) (min_le_left _ _), le_max_left _ _,
    max_le (by norm_num) (min_le_left _ _), by decide, by decide⟩

theorem hybrid_search_clamps_witness :
    (hybrid_search emptyEnv "query" 999 0).2
      = [RemoteCall.embedText (pyStrip "query"),
         RemoteCall.lexSearch (pyStrip "query") (clampK 999),
         RemoteCall.vecSearch (clampK 0)] ∧
    1 ≤ clampK 999 ∧ clampK 999 ≤ 50 ∧
    1 ≤ clampK 0 ∧ clampK 0 ≤ 50 ∧
    clampK 999 = 50 ∧ clampK 0 = 1 :=
  hybrid_search_clamps emptyEnv "query" 999 0 (by decide)

/-- C9: an empty or whitespace-only query returns `([], [])` and issues no
embedding computation and no remote search call (the trace is empty). -/
theorem hybrid_search_empty_query (env : SearchEnv) (query : String)
    (k_text k_vector : Int) (h : pyStrip query = "") :
    hybrid_search env query k_text k_vector = (([], []), []) := by
  simp [hybrid_search, h]

theorem hybrid_search_empty_query_witness :
    hybrid_search emptyEnv "   " 5 5 = (([], []), []) :=
  hybrid_search_empty_query emptyEnv "   " 5 5 (by decide)

/-- C3 counterexample: the successful, parseable response
`{"hits": {"total": -5}}` makes `count_by_term` return -5, which is not an
integer greater than or equal to 0. -/
theorem count_by_term_negative_total :
    count_by_term_parse [("hits", Json.obj [("total", Json.num (-5))])] = -5 ∧
    ¬ (0 ≤ count_by_term_parse [("hits", Json.obj [("total", Json.num (-5))])]) := by
  decide

/-- C3 (amended): for every successful search response whose body is a JSON
object, `count_by_term` returns an integer and never raises; it returns the
reported total whenever the hits/total shape parses as a count (so the
result can be negative exactly when the engine reports a negative total),
and the defensive default 0 on any shape that cannot be parsed as a
count. -/
theorem count_by_term_defensive :
    (∀ resp : List (String × Json),
        count_by_term_parse resp = (parsedTotal resp).getD 0) ∧
    (∀ resp : List (String × Json),
        parsedTotal resp = none → count_by_term_parse resp = 0) := by
  have key : ∀ resp : List (String × Json),
      count_by_term_parse resp = (parsedTotal resp).getD 0 := by
    intro resp
    cases h₁ : jsonLookup resp "hits" with
    | none => simp [count_by_term_parse, parsedTotal, h₁]
    | some hv =>
      cases hv with
      | obj hits =>
        cases h₂ : jsonLookup hits "total" with
        | none => simp [count_by_term_parse, parsedTotal, h₁, h₂]
        | some tv =>
          cases tv with
          | obj total =>
            cases h₃ : jsonLookup total "value" with
            | none => simp [count_by_term_parse, parsedTotal, h₁, h₂, h₃]
            | some v => simp [count_by_term_parse, parsedTotal, h₁, h₂, h₃]
          | null => simp [count_by_term_parse, parsedTotal, h₁, h₂]
          | bool b => simp [count_by_term_parse, parsedTotal, h₁, h₂]
          | num n => simp [count_by_term_parse, parsedTotal, h₁, h₂]
          | str s => simp [count_by_term_parse, parsedTotal, h₁, h₂]
          | arr xs => simp [count_by_term_parse, parsedTotal, h₁, h₂]
      | null => simp [count_by_term_parse, parsedTotal, h₁]
      | bool b => simp [count_by_term_parse, parsedTotal, h₁]
      | num n => simp [count_by_term_parse, parsedTotal, h₁]
      | str s => simp [count_by_term_parse, parsedTotal, h₁]
      | arr xs => simp [count_by_term_parse, parsedTotal, h₁]
  exact ⟨key, fun resp h => by rw [key resp, h]; rfl⟩

theorem jsonLookup_encodeProps (ps : List (String × FieldDecl)) (f : String) :
    jsonLookup (encodeProps ps) f = (lookupDecl ps f).map FieldDecl.toJson := by
  induction ps with
  | nil => rfl
  | cons hd tl ih =>
    obtain ⟨k, d⟩ := hd
    by_cases hk : k = f <;> simp [encodeProps, jsonLookup, lookupDecl, hk, ih]

theorem typeFailCheck_encode (e dx : FieldDecl) :
    typeFailCheck (("type", Json.str e.type) :: e.dimList)
        (("type", Json.str dx.type) :: dx.dimList)
      = ((e.type != "") && !(dx.type == e.type)) := rfl

theorem isKnnExpected_encode (e : FieldDecl) :
    isKnnExpected (("type", Json.str e.type) :: e.dimList)
      = (e.type == "knn_vector") := rfl

theorem encodeProps_eq_map (ps : List (String × FieldDecl)) :
    encodeProps ps = ps.map (fun fd => (fd.1, fd.2.toJson)) := by
  induction ps with
  | nil => rfl
  | cons hd tl ih =>
    obtain ⟨k, d⟩ := hd
    simp [encodeProps, ih]

theorem jsonLookup_dimList (d : FieldDecl) :
    jsonLookup (("type", Json.str d.type) :: d.dimList) "dimension"
      = d.dimension.map Json.num := by
  cases h : d.dimension <;>
    simp only [FieldDecl.dimList, h] <;> rfl

theorem dimensionOk_encode (e dx : FieldDecl) :
    dimensionOk (("type", Json.str e.type) :: e.dimList)
        (("type", Json.str dx.type) :: dx.dimList)
      = (match e.dimension, dx.dimension with
         | some a, some b => a == b
         | _, _ => false) := by
  unfold dimensionOk
  rw [jsonLookup_dimList, jsonLookup_dimList]
  cases e.dimension <;> cases dx.dimension <;> rfl

/-- What `coverField` computes on two encoded field declarations. -/
def coversB (dx e : FieldDecl) : Bool :=
  if (e.type != "") && !(dx.type == e.type) then false
  else if e.type == "knn_vector" then
    match e.dimension, dx.dimension with
    | some a, some b => a == b
    | _, _ => false
  else true

theorem coversB_iff (dx e : FieldDecl) (he : e.type ≠ "") :
    (coversB dx e = true ↔ declCovers dx e) := by
  unfold coversB declCovers
  by_cases hty : dx.type = e.type
  · have h1 : ((e.type != "") && !(dx.type == e.type)) = false := by
      rw [hty]; simp
    rw [h1]
    simp only [Bool.false_eq_true, if_false]
    by_cases hk : e.type = "knn_vector"
    · have h2 : (e.type == "knn_vector") = true := by rw [hk]; simp
      rw [h2]
      simp only [if_true]
      cases hde : e.dimension with
      | none => cases hdx : dx.dimension <;> simp [hty, hk]
      | some a =>
        cases hdx : dx.dimension with
        | none => simp [hty, hk]
        | some b =>
          constructor
          · intro hab
            have hab' : a = b := by simpa using hab
            exact ⟨hty, fun _ => ⟨a, rfl, by rw [hab']⟩⟩
          · rintro ⟨-, h⟩
            obtain ⟨n, hn1, hn2⟩ := h hk
            injection hn1 with hn1
            injection hn2 with hn2
            subst hn1
            simp [hn2]
    · have h2 : (e.type == "knn_vector") = false := by simp [hk]
      rw [h2]
      simp [hty, hk]
  · have h1 : ((e.type != "") && !(dx.type == e.type)) = true := by
      simp [he, hty]
    rw [h1]
    simp [hty]

theorem coverField_encode (existing : List (String × FieldDecl)) (f : String)
    (e : FieldDecl) (he : e.type ≠ "") :
    (coverField (encodeProps existing) f e.toJson = true
      ↔ ∃ dx, lookupDecl existing f = some dx ∧ declCovers dx e) := by
  cases hx : lookupDecl existing f with
  | none => simp [coverField, jsonLookup_encodeProps, hx]
  | some dx =>
    have hcf : coverField (encodeProps existing) f e.toJson = coversB dx e := by
      unfold coverField
      rw [jsonLookup_encodeProps, hx]
      show (if typeFailCheck (("type", Json.str e.type) :: e.dimList)
                (("type", Json.str dx.type) :: dx.dimList) then false
            else if isKnnExpected (("type", Json.str e.type) :: e.dimList) then
              dimensionOk (("type", Json.str e.type) :: e.dimList)
                (("type", Json.str dx.type) :: dx.dimList)
            else true) = coversB dx e
      rw [typeFailCheck_encode, isKnnExpected_encode, dimensionOk_encode]
      rfl
    rw [hcf]
    simp only [hx, Option.some.injEq, exists_eq_left']
    exact coversB_iff dx e he

/-- C6: the mapping-coverage check returns true iff every expected field is
present in the existing mapping with the same declared type, `knn_vector`
fields additionally requiring equal integer dimension, extra existing
fields permitted; in particular `{doc_id: keyword, content: text}` covers
`{doc_id: keyword}` but not `{content: text, embedding:
knn_vector(dim=1024)}`. -/
theorem mapping_coverage :
    (∀ (existing expected : List (String × FieldDecl)),
        (∀ fe ∈ expected, fe.2.type ≠ "") →
        (properties_cover_expected (encodeProps existing) (encodeProps expected) = true
          ↔ ∀ fe ∈ expected,
              ∃ dx, lookupDecl existing fe.1 = some dx ∧ declCovers dx fe.2)) ∧
    properties_cover_expected
      [("doc_id", Json.obj [("type", Json.str "keyword")]),
       ("content", Json.obj [("type", Json.str "text")])]
      [("doc_id", Json.obj [("type", Json.str "keyword")])] = true ∧
    properties_cover_expected
      [("doc_id", Json.obj [("type", Json.str "keyword")]),
       ("content", Json.obj [("type", Json.str "text")])]
      [("content", Json.obj [("type", Json.str "text")]),
       ("embedding", Json.obj [("type", Json.str "knn_vector"),
                               ("dimension", Json.num 1024)])] = false := by
  refine ⟨?_, by decide, by decide⟩
  intro existing expected hne
  rw [properties_cover_expected, encodeProps_eq_map expected, List.all_eq_true]
  constructor
  · intro h fe hfe
    have hm : (fe.1, FieldDecl.toJson fe.2)
        ∈ expected.map (fun fd => (fd.1, fd.2.toJson)) :=
      List.mem_map_of_mem _ hfe
    exact (coverField_encode existing fe.1 fe.2 (hne fe hfe)).mp (h _ hm)
  · intro h fj hfj
    obtain ⟨fe, hfe, rfl⟩ := List.mem_map.mp hfj
    exact (coverField_encode existing fe.1 fe.2 (hne fe hfe)).mpr (h fe hfe)

/-- C7: the upload plan contains exactly the local files whose destination
key — the normalized prefix concatenated with the relative POSIX path — is
absent from the keys listed remotely; key presence alone suppresses the
upload (the plan is a function of keys only, no content enters it), the
normalized prefix is empty or ends with the separator, and the destination
key is always the plain concatenation (empty prefix meaning no prefix). -/
theorem upload_plan_is_key_diff :
    (∀ (pfx : String) (existingKeys relKeys : List String) (rk key : String),
        ((rk, key) ∈ planned_uploads pfx existingKeys relKeys
          ↔ rk ∈ relKeys ∧ key = destKey pfx rk ∧ key ∉ existingKeys)) ∧
    (∀ raw, destPfx raw = "" ∨ endswithSlash (destPfx raw) = true) ∧
    (∀ pfx rk, destKey pfx rk = pfx ++ rk) := by
  refine ⟨?_, ?_, ?_⟩
  · intro pfx E rks rk key
    unfold planned_uploads
    rw [List.mem_filterMap]
    constructor
    · rintro ⟨a, ha, hfa⟩
      by_cases hmem : destKey pfx a ∈ E
      · simp [hmem] at hfa
      · rw [if_neg hmem] at hfa
        obtain ⟨rfl, rfl⟩ := Prod.ext_iff.mp (Option.some.inj hfa)
        exact ⟨ha, rfl, hmem⟩
    · rintro ⟨hmem, rfl, hnot⟩
      exact ⟨rk, hmem, by simp [hnot]⟩
  · intro raw
    unfold destPfx ensureTrailingSlash
    by_cases h : pyStrip raw ≠ "" ∧ endswithSlash (pyStrip raw) = false
    · right
      rw [if_pos h]
      show ((pyStrip raw ++ "/").data.getLast? == some '/') = true
      rw [String.data_append,
        show ("/" : String).data = ['/'] from rfl,
        List.getLast?_concat]
      rfl
    · rw [if_neg h]
      push_neg at h
      by_cases hp : pyStrip raw = ""
      · exact Or.inl hp
      · exact Or.inr (by simpa using h hp)
  · intro pfx rk
    unfold destKey
    by_cases h : pfx ≠ ""
    · rw [if_pos h]
    · rw [if_neg h]
      push_neg at h
      rw [h]
      simp

/-- The invariant of the merge accumulator: no duplicates, no entry empty
or changed by another trim. -/
def goodList (l : List String) : Prop :=
  l.Nodup ∧ ∀ x ∈ l, x ≠ "" ∧ pyStrip x = x

/-- The invariant over both sides of the accumulator. -/
def goodState (st : MergeState) : Prop :=
  goodList st.phrases ∧ goodList st.documents

theorem goodList_append {l : List String} {x : String} (hl : goodList l)
    (hx : x ∉ l) (hne : x ≠ "") (hfix : pyStrip x = x) : goodList (l ++ [x]) := by
  obtain ⟨hnd, hall⟩ := hl
  constructor
  · simp [List.nodup_append, hnd, hx]
  · intro y hy
    rcases List.mem_append.mp hy with hy | hy
    · exact hall y hy
    · simp at hy
      subst hy
      exact ⟨hne, hfix⟩

theorem addPhrase_good {st : MergeState} (h : goodState st)
    (phrase doc : String) : goodState (addPhrase st phrase doc) := by
  obtain ⟨hp, hd⟩ := h
  unfold addPhrase
  by_cases h₀ : pyStrip phrase = ""
  · simpa [h₀] using ⟨hp, hd⟩
  · rw [if_neg h₀]
    constructor
    · by_cases hmem : pyStrip phrase ∈ st.phrases
      · simpa [hmem] using hp
      · simpa [hmem] using
          goodList_append hp hmem h₀ (pyStrip_idem phrase)
    · by_cases hdoc : doc = ""
      · simpa [hdoc] using hd
      · rw [if_neg hdoc]
        by_cases hskip : pyStrip doc = "" ∨ pyStrip doc ∈ st.documents
        · simpa [hskip] using hd
        · rw [if_neg hskip]
          push_neg at hskip
          exact goodList_append hd hskip.2 hskip.1 (pyStrip_idem doc)

theorem foldl_addPhrase_good {α : Type} (f g : α → String) (l : List α)
    {st : MergeState} (h : goodState st) :
    goodState (l.foldl (fun st x => addPhrase st (f x) (g x)) st) := by
  induction l generalizing st with
  | nil => exact h
  | cons a t ih => exact ih (addPhrase_good h (f a) (g a))

theorem lexicalStep_good {st : MergeState} (h : goodState st) (hit : LexicalHit) :
    goodState (lexicalStep st hit) := by
  unfold lexicalStep
  cases hh : hit.highlights with
  | nil =>
    by_cases ht : hit.title = ""
    · simpa [ht] using h
    · simpa [ht] using addPhrase_good h hit.title hit.path
  | cons a as_ =>
    exact foldl_addPhrase_good (fun frag => stripEmTags frag) (fun _ => hit.path)
      (a :: as_) h

theorem hybridMerge_good (vhits : List VectorHit) (lhits : List LexicalHit) :
    goodState ⟨(hybridMerge vhits lhits).1, (hybridMerge vhits lhits).2⟩ := by
  unfold hybridMerge
  have h₁ : goodState (vhits.foldl (fun st h => addPhrase st h.text h.path) ⟨[], []⟩) :=
    foldl_addPhrase_good VectorHit.text VectorHit.path vhits
      ⟨⟨List.nodup_nil, by simp⟩, ⟨List.nodup_nil, by simp⟩⟩
  have h₂ : ∀ (l : List LexicalHit) (st : MergeState), goodState st →
      goodState (l.foldl lexicalStep st) := by
    intro l
    induction l with
    | nil => exact fun st h => h
    | cons a t ih => exact fun st h => ih _ (lexicalStep_good h a)
  exact h₂ lhits _ h₁

/-- C10: the merged phrase and document lists hold no duplicates and no
empty or whitespace-only entries; a hit whose phrase trims to the empty
string contributes neither a phrase nor its document path; and a lexical
hit with no highlight fragments and an empty title contributes nothing. -/
theorem hybrid_merge_clean :
    (∀ (vhits : List VectorHit) (lhits : List LexicalHit),
        (hybridMerge vhits lhits).1.Nodup ∧ (hybridMerge vhits lhits).2.Nodup ∧
        (∀ p ∈ (hybridMerge vhits lhits).1, p ≠ "" ∧ pyStrip p = p) ∧
        (∀ d ∈ (hybridMerge vhits lhits).2, d ≠ "" ∧ pyStrip d = d)) ∧
    (∀ (st : MergeState) (phrase doc : String),
        pyStrip phrase = "" → addPhrase st phrase doc = st) ∧
    (∀ (st : MergeState) (hit : LexicalHit),
        hit.highlights = [] → hit.title = "" → lexicalStep st hit = st) := by
  refine ⟨?_, ?_, ?_⟩
  · intro vhits lhits
    obtain ⟨⟨hp₁, hp₂⟩, ⟨hd₁, hd₂⟩⟩ := hybridMerge_good vhits lhits
    exact ⟨hp₁, hd₁, hp₂, hd₂⟩
  · intro st phrase doc h
    simp [addPhrase, h]
  · intro st hit h₁ h₂
    simp [lexicalStep, h₁, h₂]

theorem runUploads_eq (o : IngestOracles) (l : List (String × String)) :
    runUploads o l
      = (l.countP (fun pk => (o.upload pk.2).isOk),
         l.map (fun pk => WriteEvent.upload pk.2)) := by
  induction l with
  | nil => rfl
  | cons hd tl ih =>
    obtain ⟨rk, key⟩ := hd
    cases hu : o.upload key <;>
      simp [runUploads, ih, hu, List.countP_cons, Except.isOk, Except.toBool]

theorem gatherFold_eq (rs : List (Except String (Nat × Nat) × List WriteEvent)) :
    ∀ s v : Nat,
      rs.foldl gatherStep (s, v)
        = (s + (rs.map (fun rp => match rp.1 with
                | Except.ok tc => tc.1
                | Except.error _ => 0)).sum,
           v + (rs.map (fun rp => match rp.1 with
                | Except.ok tc => tc.2
                | Except.error _ => 0)).sum) := by
  induction rs with
  | nil => intro s v; simp
  | cons hd tl ih =>
    intro s v
    obtain ⟨r, evs⟩ := hd
    cases r with
    | ok tc =>
      obtain ⟨t, c⟩ := tc
      simp [gatherStep, ih, Nat.add_assoc]
    | error e => simp [gatherStep, ih]

theorem map_contribution_fst (o : IngestOracles) (docs : List Doc) :
    (docs.map (indexOneDoc o)).map (fun rp => match rp.1 with
        | Except.ok tc => tc.1
        | Except.error _ => 0)
      = docs.map (fun d => (docContribution o d).1) := by
  rw [List.map_map]
  congr 1
  funext d
  show (match (indexOneDoc o d).1 with
        | Except.ok tc => tc.1
        | Except.error _ => 0) = (docContribution o d).1
  unfold docContribution
  cases h : (indexOneDoc o d).1 <;> simp

theorem map_contribution_snd (o : IngestOracles) (docs : List Doc) :
    (docs.map (indexOneDoc o)).map (fun rp => match rp.1 with
        | Except.ok tc => tc.2
        | Except.error _ => 0)
      = docs.map (fun d => (docContribution o d).2) := by
  rw [List.map_map]
  congr 1
  funext d
  show (match (indexOneDoc o d).1 with
        | Except.ok tc => tc.2
        | Except.error _ => 0) = (docContribution o d).2
  unfold docContribution
  cases h : (indexOneDoc o d).1 <;> simp

/-- What the run computes when the document root is valid: the outcome is
the itemwise-independent aggregation (uploads counted per key, per-document
contributions summed, one failed item contributing nothing while its
siblings still count), and the events are the upload attempts followed by
the per-document events. -/
theorem startup_ingest_true_eq (o : IngestOracles) (praw : String)
    (E : List String) (docs : List Doc) :
    startup_ingest o true praw E docs
      = (Except.ok
          { local_docs := docs.length,
            s3_uploaded :=
              (planned_uploads (destPfx praw) E (docs.map Doc.relPath)).countP
                (fun pk => (o.upload pk.2).isOk),
            search_indexed := (docs.map (fun d => (docContribution o d).1)).sum,
            vector_chunks_indexed :=
              (docs.map (fun d => (docContribution o d).2)).sum },
         (planned_uploads (destPfx praw) E (docs.map Doc.relPath)).map
             (fun pk => WriteEvent.upload pk.2)
           ++ ((docs.map (indexOneDoc o)).map Prod.snd).flatten) := by
  simp only [startup_ingest, Bool.true_eq_false, if_false]
  rw [runUploads_eq, gatherFold_eq, map_contribution_fst, map_contribution_snd]
  simp

/-- Concrete oracles for closed instantiations: ids are the paths
themselves, every document already indexed on both sides, every remote
write succeeding. -/
def demoOracles : IngestOracles where
  docId := fun s => s
  split := fun s => [s]
  embed := fun _ => .ok [0]
  textExists := fun _ => .ok true
  indexText := fun _ => .ok ()
  chunkCount := fun _ => .ok 1
  indexChunk := fun _ => .ok ()
  upload := fun _ => .ok ()

/-- C4 counterexample: with a missing or invalid local document root the
startup run is not fatal — it returns the all-zero outcome successfully
(`Except.ok`, not an error), contradicting "only a missing or invalid local
document root is fatal for the run". -/
theorem missing_root_returns_zero_outcome :
    startup_ingest demoOracles false "sagemaker-docs/" [] [⟨"intro.md", "hello"⟩]
      = (Except.ok ⟨0, 0, 0, 0⟩, []) ∧
    (startup_ingest demoOracles false "sagemaker-docs/" [] [⟨"intro.md", "hello"⟩]).1.isOk
      = true :=
  ⟨rfl, rfl⟩

/-- C4 (amended): no individual item failure is promoted to a fatal error —
the run always returns an outcome, a failed item contributes nothing while
its siblings' contributions are still counted (the counts are the
itemwise-independent sums) — and a missing or invalid local document root
is not fatal either: the startup run skips ingestion and returns the
all-zero outcome. -/
theorem ingest_item_failures_contained :
    (∀ (o : IngestOracles) (rootValid : Bool) (praw : String)
        (E : List String) (docs : List Doc),
        (startup_ingest o rootValid praw E docs).1.isOk = true) ∧
    (∀ (o : IngestOracles) (praw : String) (E : List String) (docs : List Doc),
        startup_ingest o false praw E docs = (Except.ok ⟨0, 0, 0, 0⟩, [])) ∧
    (∀ (o : IngestOracles) (praw : String) (E : List String) (docs : List Doc),
        (startup_ingest o true praw E docs).1
          = Except.ok
              { local_docs := docs.length,
                s3_uploaded :=
                  (planned_uploads (destPfx praw) E (docs.map Doc.relPath)).countP
                    (fun pk => (o.upload pk.2).isOk),
                search_indexed :=
                  (docs.map (fun d => (docContribution o d).1)).sum,
                vector_chunks_indexed :=
                  (docs.map (fun d => (docContribution o d).2)).sum }) := by
  refine ⟨?_, fun o praw E docs => rfl, fun o praw E docs => ?_⟩
  · intro o rootValid praw E docs
    cases rootValid with
    | false => rfl
    | true => rw [startup_ingest_true_eq]; rfl
  · rw [startup_ingest_true_eq]

/-- C5: when the vector-index term-count query for a document's `doc_id`
reports a positive count, processing that document performs no
chunk-splitting, no embedding computation and no chunk-index write — every
event it can emit is a lexical-index write — and its chunk counter is 0,
regardless of the document's content. -/
theorem chunk_skip_document_granular (o : IngestOracles) (d : Doc) (n : Int)
    (hc : o.chunkCount (o.docId d.relPath) = Except.ok n) (hn : 0 < n) :
    (∀ e ∈ (indexOneDoc o d).2, ∃ id, e = WriteEvent.indexText id) ∧
    (∀ t c, (indexOneDoc o d).1 = Except.ok (t, c) → c = 0) := by
  have hex : embeddings_exist_for_doc o (o.docId d.relPath) = Except.ok true := by
    rw [embeddings_exist_for_doc, hc]
    show Except.ok (decide (0 < n)) = Except.ok true
    simp [hn]
  cases ht : o.textExists (o.docId d.relPath) with
  | error e =>
    have hval : indexOneDoc o d = (Except.error e, []) := by
      simp [indexOneDoc, ht]
    rw [hval]
    exact ⟨by simp, by simp⟩
  | ok tEx =>
    cases tEx with
    | true =>
      have hval : indexOneDoc o d = (Except.ok (0, 0), []) := by
        simp [indexOneDoc, ht, hex]
      rw [hval]
      refine ⟨by simp, ?_⟩
      intro t c h
      obtain ⟨h₁, h₂⟩ := Prod.ext_iff.mp (Except.ok.inj h)
      exact h₂.symm
    | false =>
      cases hw : o.indexText (o.docId d.relPath) with
      | error err =>
        have hval : indexOneDoc o d
            = (Except.error err, [WriteEvent.indexText (o.docId d.relPath)]) := by
          simp [indexOneDoc, ht, hw]
        rw [hval]
        refine ⟨?_, by simp⟩
        intro ev hev
        simp at hev
        exact ⟨_, hev⟩
      | ok u =>
        have hval : indexOneDoc o d
            = (Except.ok (1, 0), [WriteEvent.indexText (o.docId d.relPath)]) := by
          simp [indexOneDoc, ht, hw, hex]
        rw [hval]
        refine ⟨?_, ?_⟩
        · intro ev hev
          simp at hev
          exact ⟨_, hev⟩
        · intro t c h
          obtain ⟨h₁, h₂⟩ := Prod.ext_iff.mp (Except.ok.inj h)
          exact h₂.symm

theorem chunk_skip_document_granular_witness :
    (∀ e ∈ (indexOneDoc demoOracles ⟨"intro.md", "hello"⟩).2,
        ∃ id, e = WriteEvent.indexText id) ∧
    (∀ t c, (indexOneDoc demoOracles ⟨"intro.md", "hello"⟩).1 = Except.ok (t, c) →
        c = 0) :=
  chunk_skip_document_granular demoOracles ⟨"intro.md", "hello"⟩ 1 rfl (by decide)

/-- C1: a sync run against a remote state already fully populated — every
destination key already listed, the lexical existence check true and the
chunk count positive for every document — performs zero uploads, zero
lexical writes, zero split/embed/chunk writes (the event trace is empty)
and reports `s3_uploaded = 0`, `search_indexed = 0`,
`vector_chunks_indexed = 0`. -/
theorem sync_idempotent_when_populated (o : IngestOracles) (praw : String)
    (E : List String) (docs : List Doc)
    (h1 : ∀ d ∈ docs, destKey (destPfx praw) d.relPath ∈ E)
    (h2 : ∀ d ∈ docs, o.textExists (o.docId d.relPath) = Except.ok true)
    (h3 : ∀ d ∈ docs, ∃ n, o.chunkCount (o.docId d.relPath) = Except.ok n ∧ 0 < n) :
    startup_ingest o true praw E docs
      = (Except.ok ⟨docs.length, 0, 0, 0⟩, []) := by
  have hskip : ∀ d ∈ docs, indexOneDoc o d = (Except.ok (0, 0), []) := by
    intro d hd
    obtain ⟨n, hc, hn⟩ := h3 d hd
    have hex : embeddings_exist_for_doc o (o.docId d.relPath) = Except.ok true := by
      rw [embeddings_exist_for_doc, hc]
      show Except.ok (decide (0 < n)) = Except.ok true
      simp [hn]
    simp [indexOneDoc, h2 d hd, hex]
  have hplan : planned_uploads (destPfx praw) E (docs.map Doc.relPath) = [] := by
    rw [planned_uploads, List.filterMap_eq_nil_iff]
    intro rk hrk
    obtain ⟨d, hd, rfl⟩ := List.mem_map.mp hrk
    simp [h1 d hd]
  have hs1 : (docs.map (fun d => (docContribution o d).1)).sum = 0 := by
    apply List.sum_eq_zero
    intro x hx
    obtain ⟨d, hd, rfl⟩ := List.mem_map.mp hx
    simp [docContribution, hskip d hd]
  have hs2 : (docs.map (fun d => (docContribution o d).2)).sum = 0 := by
    apply List.sum_eq_zero
    intro x hx
    obtain ⟨d, hd, rfl⟩ := List.mem_map.mp hx
    simp [docContribution, hskip d hd]
  have hflat : ((docs.map (indexOneDoc o)).map Prod.snd).flatten = [] := by
    apply List.flatten_eq_nil_iff.mpr
    intro l hl
    obtain ⟨rp, hrp, rfl⟩ := List.mem_map.mp hl
    obtain ⟨d, hd, rfl⟩ := List.mem_map.mp hrp
    simp [hskip d hd]
  rw [startup_ingest_true_eq, hplan, hs1, hs2, hflat]
  simp

theorem sync_idempotent_witness :
    startup_ingest demoOracles true "docs/" ["docs/intro.md"] [⟨"intro.md", "hello"⟩]
      = (Except.ok ⟨1, 0, 0, 0⟩, []) :=
  sync_idempotent_when_populated demoOracles "docs/" ["docs/intro.md"]
    [⟨"intro.md", "hello"⟩]
    (List.forall_mem_singleton.mpr (by decide))
    (List.forall_mem_singleton.mpr rfl)
    (List.forall_mem_singleton.mpr ⟨1, rfl, by decide⟩)

end AwsRagBot
